import Mathlib

/-!  Verification of the sliver-exuder engine of Mesh_3/Slivers_exuder.h.

Shallow embedding.  The exuder's own control flow and data handling are
translated into executable Lean functions.  The external collaborators the
source consumes through narrow interfaces (triangulation incidence and
mirroring, conflict-zone computation, the geometric kernel's critical-radius
and sliver-criterion computations, spatial locks) are supplied as oracle
fields of a `Tri` structure; the C++ doubles are modelled as rationals.
CGAL::Double_map is modelled from its reverse (value-sorted) side as an
ascending association list; std::map as an association list.  -/

/-- Cell handle (Tr::Cell_handle), abstracted to an id. -/
abbrev Cell := Nat

/-- Vertex handle (Tr::Vertex_handle), abstracted to an id. -/
abbrev VertexH := Nat

/-- Facet: a (cell, local index) pair, exactly as in the source. -/
abbrev Facet := Cell × Fin 4

/-- Weighted point: a bare point (abstracted to an id) plus a weight. -/
structure WPoint where
  bare : Nat
  weight : ℚ
  deriving DecidableEq

/-- Association list standing for std::map; keys are unique by construction. -/
abbrev AssocL (κ ν : Type) := List (κ × ν)

/-- Lookup, as std::map::find. -/
def alFind {κ ν : Type} [DecidableEq κ] (k : κ) (m : AssocL κ ν) : Option ν :=
  (m.find? (fun p => decide (p.1 = k))).map (fun p => p.2)

/-- Erase a key, as std::map::erase. -/
def alErase {κ ν : Type} [DecidableEq κ] (k : κ) (m : AssocL κ ν) : AssocL κ ν :=
  m.filter (fun p => decide (p.1 ≠ k))

/-- std::map::insert: does not overwrite an existing key. -/
def alInsert {κ ν : Type} [DecidableEq κ] (k : κ) (v : ν) (m : AssocL κ ν) : AssocL κ ν :=
  if (alFind k m).isSome then m else m ++ [(k, v)]

/-- std::map::operator[] followed by assignment: overwrites. -/
def alSet {κ ν : Type} [DecidableEq κ] (k : κ) (v : ν) (m : AssocL κ ν) : AssocL κ ν :=
  if (alFind k m).isSome then m.map (fun p => if p.1 = k then (k, v) else p)
  else m ++ [(k, v)]

/-- CGAL::Double_map seen from its reverse (value-sorted) side: an ascending
list of (value, key) pairs; insertion keeps ties in insertion order, the way
std::multimap::insert places a new entry at the upper bound of its key. -/
abbrev PQ (α : Type) := List (ℚ × α)

/-- Insertion into the value-sorted view of a Double_map. -/
def pqInsert {α : Type} (r : ℚ) (k : α) : PQ α → PQ α
  | [] => [(r, k)]
  | (r2, k2) :: t => if r < r2 then (r, k) :: (r2, k2) :: t else (r2, k2) :: pqInsert r k t

/-- Key membership test of a Double_map. -/
def pqContains {α : Type} [DecidableEq α] (k : α) (q : PQ α) : Bool :=
  q.any (fun p => decide (p.2 = k))

/-- Double_map::erase: removes the (unique) entry carrying the given key. -/
def pqEraseKey {α : Type} [DecidableEq α] (k : α) (q : PQ α) : PQ α :=
  q.filter (fun p => decide (p.2 ≠ k))

/-- Keys currently present in a Double_map, in priority order. -/
def pqKeys {α : Type} (q : PQ α) : List α := q.map (fun p => p.2)

/-- Conflict-zone data: the output of tr_.find_conflicts for the candidate
weighted point, plus the post-insertion incidence data the updater reads back
from the triangulation (incident cells and facets of the new vertex).  All of
it is external-collaborator data. -/
structure ConflictZone where
  boundary_facets : List Facet
  deleted_cells : List Cell
  internal_facets : List Facet
  couldLock : Bool
  newVertex : VertexH
  newCells : List Cell
  newIncidentFacets : List Facet

/-- The external triangulation / kernel / locking collaborators, as consumed by
the exuder (spec section 6).  criterion c is sliver_criteria_(tr_.tetrahedron c);
criterionPumped v f is the sliver criterion of the tetrahedron formed by the
pumped vertex and the three non-opposite vertices of facet f (source lines
1081-1086); critRadius v c is compute_critical_squared_radius of c's four
points and v; nnDist v is get_closest_vertice_squared_distance. -/
structure Tri where
  mirror : Facet → Facet
  cellVertex : Cell → Fin 4 → VertexH
  indexOf : Cell → VertexH → Fin 4
  isInfinite : Cell → Bool
  incidentCells : VertexH → List Cell
  hasVertex : Facet → VertexH → Bool
  criterion : Cell → ℚ
  criterionPumped : VertexH → Facet → ℚ
  critRadius : VertexH → Cell → ℚ
  nnDist : VertexH → ℚ
  lockIncident : Bool
  tryLockCell : Cell → Bool
  conflicts : WPoint → Cell → ConflictZone
  vcell : VertexH → Cell

/-- Per-vertex data stored in the triangulation / c3t3: the weighted point,
the boundary-dimension tag (c3t3_.in_dimension) and the boundary-feature
index (c3t3_.index). -/
structure VData where
  pt : WPoint
  dim : Int
  idx : Int
  deriving DecidableEq

instance : Inhabited VData := ⟨⟨⟨0, 0⟩, 0, 0⟩⟩

/-- The mutable mesh-side state the exuder owns or mutates: triangulation
vertices with their data, complex membership with subdomain and surface-patch
indices (index 0 plays the role of the default-constructed index), and the
cells priority queue. -/
structure MeshState where
  verts : AssocL VertexH VData
  complexCells : AssocL Cell Int
  complexFacets : AssocL Facet Int
  queue : PQ Cell
  deriving DecidableEq

/-- c3t3_.is_in_complex on a cell. -/
def inComplexCell (s : MeshState) (c : Cell) : Bool := (alFind c s.complexCells).isSome

/-- c3t3_.is_in_complex on a facet. -/
def inComplexFacet (s : MeshState) (f : Facet) : Bool := (alFind f s.complexFacets).isSome

/-- c3t3_.surface_patch_index of a facet (default 0 when not in complex). -/
def surfaceIdx (s : MeshState) (f : Facet) : Int := (alFind f s.complexFacets).getD 0

/-- c3t3_.subdomain_index of a cell (default 0 when not in complex). -/
def subdomainIdx (s : MeshState) (c : Cell) : Int := (alFind c s.complexCells).getD 0

/-- Current weight of a vertex (v->point().weight()). -/
def weightOf (s : MeshState) (v : VertexH) : ℚ := ((alFind v s.verts).getD default).pt.weight

/-- Current bare point of a vertex. -/
def bareOf (s : MeshState) (v : VertexH) : Nat := ((alFind v s.verts).getD default).pt.bare

/-- c3t3_.in_dimension of a vertex. -/
def dimOf (s : MeshState) (v : VertexH) : Int := ((alFind v s.verts).getD default).dim

/-- c3t3_.index of a vertex. -/
def idxOf (s : MeshState) (v : VertexH) : Int := ((alFind v s.verts).getD default).idx

/-- get_min_value (source lines 540-551): the minimum of the mapped criterion
values.  On an empty map the source would dereference the end iterator; the
algorithm only calls it with a non-empty cache, and 0 is the total default. -/
def get_min_value (m : AssocL Facet ℚ) : ℚ :=
  match m with
  | [] => 0
  | p :: t => t.foldl (fun acc q => min acc q.2) p.2

/-- One incident cell's contribution to the initial pre-star and criterion
cache (body of the loop at source lines 971-996). -/
def init_prestar_step (T : Tri) (s : MeshState) (v : VertexH)
    (acc : PQ Facet × AssocL Facet ℚ) (c : Cell) : PQ Facet × AssocL Facet ℚ :=
  let f : Facet := (c, T.indexOf c v)
  let opp := T.mirror f
  let cv := if inComplexCell s c then alSet f (T.criterion c) acc.2 else acc.2
  if T.isInfinite opp.1 then (acc.1, cv)
  else (pqInsert (T.critRadius v opp.1) f acc.1, cv)

/-- Source initialize_prestar_and_criterion_values (lines 946-997): seeds the
pre-star with the facets of v's incident cells (skipping those whose outer
neighbour is the infinite cell) and the criterion cache with the qualities of
the incident complex cells.  In parallel mode a failed incident-cells lock
aborts with the could-lock flag false. -/
def init_prestar_and_criterion_values (T : Tri) (s : MeshState) (par : Bool) (v : VertexH) :
    PQ Facet × AssocL Facet ℚ × Bool :=
  if par && !T.lockIncident then ([], [], false)
  else
    let r := (T.incidentCells v).foldl (init_prestar_step T s v) ([], [])
    (r.1, r.2, true)

/-- Inner facet loop of expand_prestar (source lines 1022-1090): for each facet
of the absorbed cell other than the entry facet, either cancel it against its
mirror already present in the pre-star (stopping everything when that mirror is
a complex facet), or insert it with its critical radius, updating the criterion
cache when the absorbed cell is a complex cell. -/
def expand_loop (T : Tri) (s : MeshState) (cellToAdd : Cell) (v : VertexH) (smi : Fin 4) :
    List (Fin 4) → PQ Facet → AssocL Facet ℚ → Bool × PQ Facet × AssocL Facet ℚ
  | [], ps, cv => (true, ps, cv)
  | i :: is, ps, cv =>
    if i = smi then expand_loop T s cellToAdd v smi is ps cv
    else
      let cf : Facet := (cellToAdd, i)
      let cmf := T.mirror cf
      if pqContains cmf ps then
        let ps2 := pqEraseKey cmf ps
        if inComplexFacet s cmf then (false, ps2, cv)
        else
          let cv2 := if inComplexCell s cellToAdd then alErase cmf cv else cv
          expand_loop T s cellToAdd v smi is ps2 cv2
      else
        let ps2 := if !T.isInfinite cmf.1 then pqInsert (T.critRadius v cmf.1) cf ps else ps
        let cv2 := if inComplexCell s cellToAdd then alInsert cf (T.criterionPumped v cf) cv
                   else cv
        expand_loop T s cellToAdd v smi is ps2 cv2

/-- expand_prestar (source lines 1000-1093): pops the front facet, drops its
criterion entry when the absorbed cell is in the complex, then processes the
absorbed cell's other three facets.  Returns false (can_flip = false) when a
cancelled mirror facet belongs to the complex. -/
def expand_prestar (T : Tri) (s : MeshState) (cellToAdd : Cell) (v : VertexH)
    (ps : PQ Facet) (cv : AssocL Facet ℚ) : Bool × PQ Facet × AssocL Facet ℚ :=
  match ps with
  | [] => (true, [], cv)
  | (_, startFacet) :: rest =>
    let cv1 := if inComplexCell s cellToAdd then alErase startFacet cv else cv
    expand_loop T s cellToAdd v (T.mirror startFacet).2 [0, 1, 2, 3] rest cv1

/-- Loop state of get_best_weight: the pre-star, the criterion cache, the
tracked worst criterion value and the best weight found so far. -/
structure GbwState where
  ps : PQ Facet
  cv : AssocL Facet ℚ
  worst : ℚ
  best : ℚ
  deriving DecidableEq

/-- Main loop of get_best_weight (source lines 1124-1165), fuelled.  The loop
guard is taken verbatim from line 1125-1128: can_flip (via the early exit on a
false expand_prestar), pre-star non-empty, front critical radius below
sq_delta_ * sq_d_v, and the front FACET not in the complex.  The second
component is the could-lock flag (always true in sequential mode). -/
def gbw_loop (T : Tri) (s : MeshState) (par : Bool) (sqDelta sqdv : ℚ) (v : VertexH) :
    Nat → GbwState → GbwState × Bool
  | 0, g => (g, true)
  | fuel + 1, g =>
    match g.ps with
    | [] => (g, true)
    | (criticalR, link) :: _ =>
      if criticalR < sqDelta * sqdv ∧ inComplexFacet s link = false then
        let opp := (T.mirror link).1
        if par && !T.tryLockCell opp then (g, false)
        else
          let e := expand_prestar T s opp v g.ps g.cv
          if e.1 then
            let m := get_min_value e.2.2
            if g.worst < m then
              let nextR := match e.2.1 with | [] => 0 | (r2, _) :: _ => r2
              gbw_loop T s par sqDelta sqdv v fuel
                ⟨e.2.1, e.2.2, m, (criticalR + nextR) / 2⟩
            else gbw_loop T s par sqDelta sqdv v fuel ⟨e.2.1, e.2.2, g.worst, g.best⟩
          else (⟨e.2.1, e.2.2, g.worst, g.best⟩, true)
      else (g, true)

/-- get_best_weight (source lines 1096-1178): returns (best_weight,
could_lock_zone); a lock failure anywhere yields (0, false), as the source
returns 0. with *p_could_lock_zone == false. -/
def get_best_weight (T : Tri) (s : MeshState) (par : Bool) (sqDelta : ℚ) (v : VertexH)
    (fuel : Nat) : ℚ × Bool :=
  let ini := init_prestar_and_criterion_values T s par v
  if par && !ini.2.2 then (0, false)
  else
    let worst := get_min_value ini.2.1
    let sqdv := T.nnDist v
    let r := gbw_loop T s par sqDelta sqdv v fuel ⟨ini.1, ini.2.1, worst, 0⟩
    if par && !r.2 then (0, false) else (r.1.best, r.2)

/-- get_boundary_facets_from_outside (source lines 554-573): maps each boundary
facet's mirror to the facet's surface-patch index and the inside cell's
subdomain index. -/
def get_boundary_facets_from_outside (T : Tri) (s : MeshState) (facets : List Facet) :
    AssocL Facet (Int × Int) :=
  facets.foldl (fun acc f => alInsert (T.mirror f) (surfaceIdx s f, subdomainIdx s f.1) acc) []

/-- get_opposite_ordered_edge (source lines 1258-1285): the two vertices of the
facet other than the given vertex, ordered by handle. -/
def get_opposite_ordered_edge (T : Tri) (f : Facet) (v : VertexH) : VertexH × VertexH :=
  let fd := ([0, 1, 2, 3] : List (Fin 4)).foldl
    (fun (acc : Option VertexH × Option VertexH) i =>
      let cur := T.cellVertex f.1 i
      if cur ≠ v ∧ T.hasVertex f cur = true then
        match acc.1 with
        | none => (some cur, acc.2)
        | some a => (some a, some cur)
      else acc) (none, none)
  let v1 := fd.1.getD 0
  let v2 := fd.2.getD 0
  if v2 < v1 then (v2, v1) else (v1, v2)

/-- get_umbrella (source lines 1181-1201): surface indices of the internal
facets that are in the complex, keyed by their opposite edge. -/
def get_umbrella (T : Tri) (s : MeshState) (facets : List Facet) (v : VertexH) :
    AssocL (VertexH × VertexH) Int :=
  facets.foldl (fun acc f =>
    if inComplexFacet s f then
      alInsert (get_opposite_ordered_edge T f v) (surfaceIdx s f) acc
    else acc) []

/-- Modelled from the spec: the triangulation's point insertion tr_.insert
(regular-triangulation code of this repository, not under src/).  Per the spec,
update_mesh inserts the new weighted point at the old vertex's location and
the insertion exactly replaces the removed vertex: the old vertex leaves the
triangulation and a single new vertex carrying the new weighted point enters. -/
def tr_insert (newV : VertexH) (wp : WPoint) (oldV : VertexH)
    (verts : AssocL VertexH VData) : AssocL VertexH VData :=
  alErase oldV verts ++ [(newV, ⟨wp, 0, 0⟩)]

/-- c3t3_.set_dimension: stores the boundary-dimension tag on a vertex. -/
def set_dimension (v : VertexH) (d : Int) (verts : AssocL VertexH VData) : AssocL VertexH VData :=
  verts.map (fun p => if p.1 = v then (p.1, { p.2 with dim := d }) else p)

/-- c3t3_.set_index: stores the boundary-feature index on a vertex. -/
def set_index (v : VertexH) (ix : Int) (verts : AssocL VertexH VData) : AssocL VertexH VData :=
  verts.map (fun p => if p.1 = v then (p.1, { p.2 with idx := ix }) else p)

/-- remove_from_c3t3 over a cell range. -/
def remove_cells_from_complex (cs : List Cell) (s : MeshState) : MeshState :=
  { s with complexCells := cs.foldl (fun m c => alErase c m) s.complexCells }

/-- remove_from_c3t3 over a facet range. -/
def remove_facets_from_complex (fs : List Facet) (s : MeshState) : MeshState :=
  { s with complexFacets := fs.foldl (fun m f => alErase f m) s.complexFacets }

/-- delete_cells_from_queue (source lines 592-599): the sequential policy truly
erases each cell from the Double_map; the parallel (versioned) policy leaves
the queue untouched - it bumps the cells' erase counters instead (modelled
separately by increment_erase_counter). -/
def delete_cells_from_queue (par : Bool) (cs : List Cell) (q : PQ Cell) : PQ Cell :=
  if par then q else cs.foldl (fun qq c => pqEraseKey c qq) q

/-- restore_cells_and_boundary_facets (source lines 1204-1254): for each new
incident cell, look its outside mirror facet up in the boundary map (the source
asserts this cannot fail; the impossible miss is modelled as a no-op), restore
the facet's and cell's complex attributes, and queue the cell when it is in
the complex with quality below the bound. -/
def restore_cell_step (T : Tri) (bound : ℚ) (bffo : AssocL Facet (Int × Int))
    (newV : VertexH) (st : MeshState) (c : Cell) : MeshState :=
  let nf : Facet := (c, T.indexOf c newV)
  let nffo := T.mirror nf
  match alFind nffo bffo with
  | none => st
  | some pr =>
    let st1 := if pr.1 ≠ 0 then { st with complexFacets := alSet nf pr.1 st.complexFacets }
               else st
    let st2 := if pr.2 ≠ 0 then { st1 with complexCells := alSet c pr.2 st1.complexCells }
               else st1
    if inComplexCell st2 c then
      if T.criterion c < bound then { st2 with queue := pqInsert (T.criterion c) c st2.queue }
      else st2
    else st2

/-- Folds restore_cell_step over the new incident cells. -/
def restore_cells_and_boundary_facets (T : Tri) (bound : ℚ)
    (bffo : AssocL Facet (Int × Int)) (newV : VertexH) (newCells : List Cell)
    (s : MeshState) : MeshState :=
  newCells.foldl (restore_cell_step T bound bffo newV) s

/-- One internal facet's restoration step (body of the loop at source lines
1299-1312). -/
def restore_facet_step (T : Tri) (umb : AssocL (VertexH × VertexH) Int)
    (newV : VertexH) (st : MeshState) (f : Facet) : MeshState :=
  match alFind (get_opposite_ordered_edge T f newV) umb with
  | some si => { st with complexFacets := alSet f si st.complexFacets }
  | none => st

/-- restore_internal_facets (source lines 1288-1313): restore the surface index
of each new incident facet whose opposite edge is in the umbrella. -/
def restore_internal_facets (T : Tri) (umb : AssocL (VertexH × VertexH) Int)
    (newFacets : List Facet) (newV : VertexH) (s : MeshState) : MeshState :=
  newFacets.foldl (restore_facet_step T umb newV) s

/-- update_mesh (source lines 1316-1376): compute the conflict zone (aborting
with a false could-lock flag in parallel mode), capture the boundary map and
the umbrella, drop the doomed cells from the queue and the complex, insert the
new weighted point (replacing the old vertex), copy the old vertex's dimension
tag and feature index onto the new vertex, and restore the zone. -/
def update_mesh (T : Tri) (par : Bool) (bound : ℚ) (wp : WPoint) (oldV : VertexH)
    (s : MeshState) : MeshState × Bool :=
  let cz := T.conflicts wp (T.vcell oldV)
  if par && !cz.couldLock then (s, false)
  else
    let bffo := get_boundary_facets_from_outside T s cz.boundary_facets
    let umb := get_umbrella T s cz.internal_facets oldV
    let s1 := { s with queue := delete_cells_from_queue par cz.deleted_cells s.queue }
    let s2 := remove_facets_from_complex cz.internal_facets
                (remove_facets_from_complex cz.boundary_facets
                  (remove_cells_from_complex cz.deleted_cells s1))
    let nv1 := tr_insert cz.newVertex wp oldV s2.verts
    let nv2 := set_dimension cz.newVertex (dimOf s oldV) nv1
    let nv3 := set_index cz.newVertex (idxOf s oldV) nv2
    let s3 := { s2 with verts := nv3 }
    let s4 := restore_cells_and_boundary_facets T bound bffo cz.newVertex cz.newCells s3
    let s5 := restore_internal_facets T umb cz.newIncidentFacets cz.newVertex s4
    (s5, true)

/-- pump_vertex (source lines 919-943): computes the best weight; a parallel
lock failure in the expander aborts with (false, unchanged, false); a best
weight above the current weight triggers update_mesh and returns true;
otherwise the vertex is ignored.  Result: (pumped?, state, could-lock flag). -/
def pump_vertex (T : Tri) (par : Bool) (sqDelta bound : ℚ) (fuel : Nat)
    (s : MeshState) (v : VertexH) : Bool × MeshState × Bool :=
  let gb := get_best_weight T s par sqDelta v fuel
  if par && !gb.2 then (false, s, false)
  else if weightOf s v < gb.1 then
    let u := update_mesh T par bound ⟨bareOf s v, gb.1⟩ v s
    (true, u.1, u.2)
  else (false, s, true)

/-- Sliver bound chosen by init (source lines 478-488): a non-positive
radius-ratio limit is replaced by the criterion's maximum value. -/
def init_sliver_bound (limit maxValue : ℚ) : ℚ :=
  if 0 < limit then limit else maxValue

/-- Source initialize_cells_priority_queue (lines 493-504): queue every complex
cell whose criterion value is strictly below the working bound. -/
def init_cells_queue (crit : Cell → ℚ) (bound : ℚ) (cells : List Cell) : PQ Cell :=
  cells.foldl (fun q c => if crit c < bound then pqInsert (crit c) c q else q) []

/-- init (source lines 478-488): bound selection followed by queue
initialization over the cells currently in the complex. -/
def exuder_init (limit maxValue : ℚ) (crit : Cell → ℚ) (cells : List Cell) : ℚ × PQ Cell :=
  let b := init_sliver_bound limit maxValue
  (b, init_cells_queue crit b cells)

/-- Completion codes (Mesh_optimization_return_code). -/
inductive RetCode where
  | TIME_LIMIT_REACHED
  | BOUND_REACHED
  | CANT_IMPROVE_ANYMORE
  deriving DecidableEq

/-- External data and the abstracted per-vertex pump step for the sequential
scheduler loop.  The pump mutates the mesh abstraction and the queue (through
update_mesh) on success and returns none, leaving both unchanged, on failure;
it is abstract here because each successful pump changes the triangulation the
next pump sees. -/
structure SchedWorld (μ : Type) where
  cellVertex : Cell → Fin 4 → VertexH
  dim : VertexH → Int
  pumpSurf : Bool
  pump : VertexH → μ → PQ Cell → Option (μ × PQ Cell)
  complexCells : μ → List Cell
  criterion : Cell → ℚ
  bound : ℚ
  timeUp : Nat → Bool

/-- Inner vertex loop of the sequential pump_vertices (source lines 843-861):
try the cell's vertices in index order, skipping low-dimension vertices when
surface pumping is off, stopping at the first success.  Also returns the list
of vertex indices actually attempted. -/
def try_cell_vertices {μ : Type} (W : SchedWorld μ) (c : Cell) (m : μ) (q : PQ Cell) :
    List (Fin 4) → Option (μ × PQ Cell) × List (Fin 4)
  | [] => (none, [])
  | i :: is =>
    if W.pumpSurf = true ∨ 2 < W.dim (W.cellVertex c i) then
      match W.pump (W.cellVertex c i) m q with
      | some r => (some r, [i])
      | none =>
        let t := try_cell_vertices W c m q is
        (t.1, i :: t.2)
    else try_cell_vertices W c m q is

/-- One outer iteration's effect on (mesh, queue): keep the pump result when a
vertex was pumped, otherwise pop the front cell (source lines 863-865). -/
def pump_step {μ : Type} (W : SchedWorld μ) (c : Cell) (m : μ) (q rest : PQ Cell) :
    μ × PQ Cell :=
  match (try_cell_vertices W c m q [0, 1, 2, 3]).1 with
  | some r => r
  | none => (m, rest)

/-- Result of the sequential main loop: final mesh, final queue, final tick
(the number of guard evaluations, abstracting the wall clock), and the trace
of front cells processed, in order. -/
structure LoopOut (μ : Type) where
  mesh : μ
  queue : PQ Cell
  tick : Nat
  trace : List Cell

/-- Sequential main loop of pump_vertices (source lines 836-877), fuelled. -/
def pump_loop {μ : Type} (W : SchedWorld μ) : Nat → Nat → μ → PQ Cell → LoopOut μ
  | 0, t, m, q => ⟨m, q, t, []⟩
  | fuel + 1, t, m, q =>
    match q with
    | [] => ⟨m, [], t, []⟩
    | (val, c) :: rest =>
      if W.timeUp t then ⟨m, (val, c) :: rest, t, []⟩
      else
        let st := pump_step W c m ((val, c) :: rest) rest
        let r := pump_loop W fuel (t + 1) st.1 st.2
        ⟨r.mesh, r.queue, r.tick, c :: r.trace⟩

/-- check_sliver_bound (source lines 639-652): true when no complex cell has a
criterion value strictly below the bound. -/
def check_sliver_bound (crit : Cell → ℚ) (bound : ℚ) (cells : List Cell) : Bool :=
  cells.all (fun c => !(decide (crit c < bound)))

/-- Result of a full sequential run. -/
structure RunResult (μ : Type) where
  code : RetCode
  mesh : μ
  queue : PQ Cell
  tick : Nat
  trace : List Cell

/-- pump_vertices, sequential path plus final classification (source lines
770-916): run the loop, then TIME_LIMIT_REACHED when the time budget was
exceeded, else BOUND_REACHED when the final scan finds no cell below the
bound, else CANT_IMPROVE_ANYMORE. -/
def pump_vertices_seq {μ : Type} (W : SchedWorld μ) (fuel : Nat) (m : μ) (q : PQ Cell) :
    RunResult μ :=
  let r := pump_loop W fuel 0 m q
  let code :=
    if W.timeUp r.tick then RetCode.TIME_LIMIT_REACHED
    else if check_sliver_bound W.criterion W.bound (W.complexCells r.mesh) then
      RetCode.BOUND_REACHED
    else RetCode.CANT_IMPROVE_ANYMORE
  ⟨code, r.mesh, r.queue, r.tick, r.trace⟩

/-- Parallel-policy Erase_from_queue (source lines 245-253): increment the
cell's erase counter. -/
def increment_erase_counter (ctr : Cell → Nat) (c : Cell) : Cell → Nat :=
  fun x => if x = c then ctr x + 1 else ctr x

/-- The versioned erase: the queue is not touched, only the cell's own counter
moves. -/
def erase_from_queue_versioned (ctr : Cell → Nat) (q : PQ Cell) (c : Cell) :
    (Cell → Nat) × PQ Cell :=
  (increment_erase_counter ctr c, q)

/-- One observed round of the enqueue_task retry loop (source lines 1398-1441):
the erase-counter value read at the first staleness check, the try_lock_cell
outcome, and the counter value read again after locking. -/
structure TaskRound where
  obs1 : Nat
  lockOk : Bool
  obs2 : Nat

/-- Per-vertex body of the parallel task (source lines 1398-1441): captured is
the erase counter recorded at enqueue time; the task re-checks the live counter
before and after locking the cell and abandons the entry on mismatch; doPump is
the dimension filter of line 1427; the pump returns its could-lock flag and a
false flag re-runs the round loop. -/
def task_process_vertex {σ : Type} (captured : Nat) (doPump : Bool) (pump : σ → σ × Bool) :
    List TaskRound → σ → σ
  | [], s => s
  | r :: rs, s =>
    if r.obs1 ≠ captured then s
    else if !r.lockOk then task_process_vertex captured doPump pump rs s
    else if r.obs2 ≠ captured then s
    else
      let p := if doPump then pump s else (s, true)
      if p.2 then p.1 else task_process_vertex captured doPump pump rs p.1

/-- Mirror-facet table of a small concrete triangulation fragment: vertex 0 has
incident cells 0 and 1 (facets (0,0) and (1,0) opposite it, with outer
neighbour cells 2 and 3); the absorbed cell 2 has outer neighbours 4, 5 and 6
across its other three facets.  The table is an involution on the facets the
algorithm touches. -/
def exMirror : Facet → Facet := fun f =>
  if f = ((0 : Cell), (0 : Fin 4)) then (2, 0)
  else if f = ((2 : Cell), (0 : Fin 4)) then (0, 0)
  else if f = ((1 : Cell), (0 : Fin 4)) then (3, 0)
  else if f = ((3 : Cell), (0 : Fin 4)) then (1, 0)
  else if f = ((2 : Cell), (1 : Fin 4)) then (4, 0)
  else if f = ((4 : Cell), (0 : Fin 4)) then (2, 1)
  else if f = ((2 : Cell), (2 : Fin 4)) then (5, 0)
  else if f = ((5 : Cell), (0 : Fin 4)) then (2, 2)
  else if f = ((2 : Cell), (3 : Fin 4)) then (6, 0)
  else if f = ((6 : Cell), (0 : Fin 4)) then (2, 3)
  else f

/-- Concrete oracle triangulation around the pumped vertex 0: its two incident
cells 0 and 1 have qualities 5 and 7; the neighbour cell 2 behind facet (0,0)
has critical radius 1, all other critical radii are 100; pumping vertex 0
against any facet of cell 2 would produce tetrahedra of quality 8; the nearest
neighbour of vertex 0 is at squared distance 10. -/
def exT : Tri :=
  { mirror := exMirror
    cellVertex := fun c i => if (c = 0 ∨ c = 1) ∧ i = 0 then 0 else 100 + 4 * c + i.val
    indexOf := fun _ _ => 0
    isInfinite := fun _ => false
    incidentCells := fun v => if v = 0 then [0, 1] else []
    hasVertex := fun _ _ => false
    criterion := fun c => if c = 0 then 5 else if c = 1 then 7 else 9
    criterionPumped := fun _ _ => 8
    critRadius := fun _ c => if c = 2 then 1 else 100
    nnDist := fun _ => 10
    lockIncident := true
    tryLockCell := fun _ => true
    conflicts := fun _ _ => ⟨[], [], [], true, 9, [], []⟩
    vcell := fun _ => 0 }

/-- Concrete mesh state for the example: vertex 0 carries weight 0, dimension
tag 3 and feature index 7; cells 0, 1 and 2 are in the complex (subdomain 1);
no facet is in the complex. -/
def exS : MeshState :=
  { verts := [(0, ⟨⟨0, 0⟩, 3, 7⟩)]
    complexCells := [(0, 1), (1, 1), (2, 1)]
    complexFacets := []
    queue := [] }

/-- Variant state whose facet (0,0) is a complex (surface) facet. -/
def exS2 : MeshState :=
  { exS with complexFacets := [(((0 : Cell), (0 : Fin 4)), 1)] }

/-- Scheduler world for the completion-code witness: no queue work, one complex
cell of quality 5 against bound 3, the clock never expires. -/
def schedW1 : SchedWorld Nat :=
  { cellVertex := fun c i => 4 * c + i.val
    dim := fun _ => 3
    pumpSurf := true
    pump := fun _ _ _ => none
    complexCells := fun _ => [7]
    criterion := fun c => if c = 7 then 5 else 1
    bound := 3
    timeUp := fun _ => false }

/-- Scheduler world for the inner-loop witness: every pump fails, vertex 1 of
any cell has boundary dimension 2 (skipped: surface pumping off), the other
vertices are interior. -/
def schedW2 : SchedWorld Nat :=
  { cellVertex := fun c i => 4 * c + i.val
    dim := fun v => if v % 4 = 1 then 2 else 3
    pumpSurf := false
    pump := fun _ _ _ => none
    complexCells := fun _ => [5]
    criterion := fun _ => 1
    bound := 3
    timeUp := fun _ => false }

/-- Initial get_best_weight loop state of the example world (the seeded
pre-star and criterion cache for vertex 0, worst value 5, best weight 0). -/
def exG0 : GbwState :=
  ⟨[(1, ((0 : Cell), (0 : Fin 4))), (100, ((1 : Cell), (0 : Fin 4)))],
   [(((0 : Cell), (0 : Fin 4)), 5), (((1 : Cell), (0 : Fin 4)), 7)], 5, 0⟩

/-- Pre-star of the example world after absorbing cell 2. -/
def exPs2 : PQ Facet :=
  [(100, ((1 : Cell), (0 : Fin 4))), (100, ((2 : Cell), (1 : Fin 4))),
   (100, ((2 : Cell), (2 : Fin 4))), (100, ((2 : Cell), (3 : Fin 4)))]

/-- Criterion cache of the example world after absorbing cell 2. -/
def exCv2 : AssocL Facet ℚ :=
  [(((1 : Cell), (0 : Fin 4)), 7), (((2 : Cell), (1 : Fin 4)), 8),
   (((2 : Cell), (2 : Fin 4)), 8), (((2 : Cell), (3 : Fin 4)), 8)]

/-!  Helper lemmas (shared between the claim theorems). -/

theorem hl_check_sliver_bound_spec (crit : Cell → ℚ) (bound : ℚ) (cells : List Cell)
    (h : check_sliver_bound crit bound cells = true) : ∀ c ∈ cells, bound ≤ crit c := by
  intro c hc
  have h2 := List.all_eq_true.mp h c hc
  simp only [Bool.not_eq_true', decide_eq_false_iff_not, not_lt] at h2
  exact h2

theorem hl_pqContains_insert {α : Type} [DecidableEq α] (x k : α) (r : ℚ) :
    ∀ q : PQ α, pqContains x (pqInsert r k q) = true ↔ x = k ∨ pqContains x q = true := by
  intro q
  induction q with
  | nil =>
    simp only [pqInsert, pqContains, List.any_cons, List.any_nil, Bool.or_false,
      decide_eq_true_eq]
    rw [eq_comm]
    simp
  | cons p t ih =>
    obtain ⟨r2, k2⟩ := p
    by_cases hr : r < r2
    · simp only [pqInsert, hr, if_true, pqContains, List.any_cons, Bool.or_eq_true,
        decide_eq_true_eq]
      rw [eq_comm (a := k)]
    · simp only [pqInsert, hr, if_false, pqContains, List.any_cons] at ih ⊢
      rw [Bool.or_eq_true, Bool.or_eq_true, ih]
      tauto

theorem hl_init_queue_mem (crit : Cell → ℚ) (bound : ℚ) :
    ∀ (cells : List Cell) (q0 : PQ Cell) (x : Cell),
      pqContains x
          (cells.foldl (fun q c => if crit c < bound then pqInsert (crit c) c q else q) q0) =
          true ↔
        (x ∈ cells ∧ crit x < bound) ∨ pqContains x q0 = true := by
  intro cells
  induction cells with
  | nil => simp
  | cons c t ih =>
    intro q0 x
    simp only [List.foldl_cons]
    by_cases hc : crit c < bound
    · rw [if_pos hc, ih, hl_pqContains_insert]
      constructor
      · rintro (⟨hx, hlt⟩ | (rfl | hq))
        · exact Or.inl ⟨List.mem_cons_of_mem _ hx, hlt⟩
        · exact Or.inl ⟨List.mem_cons_self _ _, hc⟩
        · exact Or.inr hq
      · rintro (⟨hx, hlt⟩ | hq)
        · rcases List.mem_cons.mp hx with rfl | hx2
          · exact Or.inr (Or.inl rfl)
          · exact Or.inl ⟨hx2, hlt⟩
        · exact Or.inr (Or.inr hq)
    · rw [if_neg hc, ih]
      constructor
      · rintro (⟨hx, hlt⟩ | hq)
        · exact Or.inl ⟨List.mem_cons_of_mem _ hx, hlt⟩
        · exact Or.inr hq
      · rintro (⟨hx, hlt⟩ | hq)
        · rcases List.mem_cons.mp hx with rfl | hx2
          · exact absurd hlt hc
          · exact Or.inl ⟨hx2, hlt⟩
        · exact Or.inr hq

theorem hl_task_passed_round {σ : Type} (captured : Nat) (doPump : Bool)
    (pump : σ → σ × Bool) :
    ∀ (rounds : List TaskRound) (s : σ),
      task_process_vertex captured doPump pump rounds s ≠ s →
      ∃ r ∈ rounds, r.obs1 = captured ∧ r.lockOk = true ∧ r.obs2 = captured := by
  intro rounds
  induction rounds with
  | nil => intro s h; simp [task_process_vertex] at h
  | cons r rs ih =>
    intro s h
    by_cases h1 : r.obs1 = captured
    · cases hlk : r.lockOk with
      | false =>
        simp only [task_process_vertex, h1, ne_eq, not_true_eq_false, if_false, hlk,
          Bool.not_false, if_true] at h
        obtain ⟨r2, hr2, hp⟩ := ih s h
        exact ⟨r2, List.mem_cons_of_mem _ hr2, hp⟩
      | true =>
        by_cases h3 : r.obs2 = captured
        · exact ⟨r, List.mem_cons_self _ _, h1, hlk, h3⟩
        · simp [task_process_vertex, h1, hlk, h3] at h
    · simp [task_process_vertex, h1] at h

/-- C1: in every sequential run of the exuder main loop, a BOUND_REACHED
completion code means the time budget was not exceeded and the final scan of
the complex found no cell with quality strictly below the bound, hence every
complex cell of the final mesh has quality at least the bound; and the
completion code is chosen with the precedence time-limit first, then
bound-reached, then cant-improve. -/
theorem C1_completion_code {μ : Type} (W : SchedWorld μ) (fuel : Nat) (m : μ) (q : PQ Cell) :
    ((pump_vertices_seq W fuel m q).code = RetCode.BOUND_REACHED →
      W.timeUp (pump_vertices_seq W fuel m q).tick = false ∧
      check_sliver_bound W.criterion W.bound
          (W.complexCells (pump_vertices_seq W fuel m q).mesh) = true ∧
      ∀ c ∈ W.complexCells (pump_vertices_seq W fuel m q).mesh, W.bound ≤ W.criterion c) ∧
    ((pump_vertices_seq W fuel m q).code =
      if W.timeUp (pump_vertices_seq W fuel m q).tick then RetCode.TIME_LIMIT_REACHED
      else if check_sliver_bound W.criterion W.bound
              (W.complexCells (pump_vertices_seq W fuel m q).mesh) then
        RetCode.BOUND_REACHED
      else RetCode.CANT_IMPROVE_ANYMORE) := by
  constructor
  · intro h
    by_cases ht : W.timeUp (pump_loop W fuel 0 m q).tick
    · exact absurd h (by simp [pump_vertices_seq, ht])
    · by_cases hc : check_sliver_bound W.criterion W.bound
          (W.complexCells (pump_loop W fuel 0 m q).mesh)
      · refine ⟨?_, ?_, ?_⟩
        · simpa [pump_vertices_seq] using ht
        · simpa [pump_vertices_seq] using hc
        · exact hl_check_sliver_bound_spec _ _ _ hc
      · exact absurd h (by simp [pump_vertices_seq, ht, hc])
  · by_cases ht : W.timeUp (pump_loop W fuel 0 m q).tick
    · simp [pump_vertices_seq, ht]
    · by_cases hc : check_sliver_bound W.criterion W.bound
          (W.complexCells (pump_loop W fuel 0 m q).mesh)
      · simp [pump_vertices_seq, ht, hc]
      · simp [pump_vertices_seq, ht, hc]

/-- Witness for C1 at the concrete scheduler world schedW1: the run completes
with BOUND_REACHED and the conclusion holds there. -/
theorem C1_completion_code_witness :
    (pump_vertices_seq schedW1 2 0 []).code = RetCode.BOUND_REACHED ∧
    ∀ c ∈ schedW1.complexCells (pump_vertices_seq schedW1 2 0 []).mesh,
      schedW1.bound ≤ schedW1.criterion c :=
  ⟨by decide, ((C1_completion_code schedW1 2 0 []).1 (by decide)).2.2⟩

/-- C9: in the versioned (parallel) priority-store policy, erasing a cell does
not mutate the queue - it only increments that cell's own erase counter - and
the parallel task body re-checks the live counter against the captured one
before acting: a mismatch at the head check abandons the entry unchanged, and
any state change requires some round in which both re-checks passed and the
cell lock was acquired. -/
theorem C9_versioned_erase (ctr : Cell → Nat) (q : PQ Cell) (c : Cell) :
    ((erase_from_queue_versioned ctr q c).2 = q) ∧
    ((erase_from_queue_versioned ctr q c).1 c = ctr c + 1) ∧
    (∀ x : Cell, x ≠ c → (erase_from_queue_versioned ctr q c).1 x = ctr x) ∧
    (∀ (σ : Type) (captured : Nat) (doPump : Bool) (pump : σ → σ × Bool)
        (r : TaskRound) (rs : List TaskRound) (s : σ),
      r.obs1 ≠ captured → task_process_vertex captured doPump pump (r :: rs) s = s) ∧
    (∀ (σ : Type) (captured : Nat) (doPump : Bool) (pump : σ → σ × Bool)
        (rounds : List TaskRound) (s : σ),
      task_process_vertex captured doPump pump rounds s ≠ s →
      ∃ r ∈ rounds, r.obs1 = captured ∧ r.lockOk = true ∧ r.obs2 = captured) := by
  refine ⟨rfl, ?_, ?_, ?_, ?_⟩
  · simp [erase_from_queue_versioned, increment_erase_counter]
  · intro x hx
    simp [erase_from_queue_versioned, increment_erase_counter, hx]
  · intro σ captured doPump pump r rs s h1
    simp [task_process_vertex, h1]
  · intro σ captured doPump pump rounds s h
    exact hl_task_passed_round captured doPump pump rounds s h

/-- Witness for C9 at concrete data: erasing cell 3 keeps the one-entry queue,
bumps only counter 3, and a task whose first observed counter is stale leaves
the state untouched. -/
theorem C9_versioned_erase_witness :
    (erase_from_queue_versioned (fun _ => 0) [(1, 3)] 3).2 = [(1, 3)] ∧
    (erase_from_queue_versioned (fun _ => 0) [(1, 3)] 3).1 3 = 1 ∧
    (erase_from_queue_versioned (fun _ => 0) [(1, 3)] 3).1 5 = 0 ∧
    task_process_vertex 0 true (fun s => (s + 1, true)) [⟨1, true, 0⟩] 42 = 42 := by
  have h := C9_versioned_erase (fun _ => 0) [(1, 3)] 3
  exact ⟨h.1, h.2.1, h.2.2.1 5 (by decide),
    h.2.2.2.1 Nat 0 true (fun s => (s + 1, true)) ⟨1, true, 0⟩ [] 42 (by decide)⟩

/-- C10: a non-positive quality threshold makes init use the criterion's
maximum value as the working sliver bound - the argument is neither rejected
nor used literally - so exactly the complex cells with quality below that
maximum are queued; a strictly positive threshold is used as given. -/
theorem C10_nonpositive_threshold (limit maxValue : ℚ) (crit : Cell → ℚ)
    (cells : List Cell) :
    (limit ≤ 0 →
      (exuder_init limit maxValue crit cells).1 = maxValue ∧
      ∀ x : Cell,
        pqContains x (exuder_init limit maxValue crit cells).2 = true ↔
          x ∈ cells ∧ crit x < maxValue) ∧
    (0 < limit → (exuder_init limit maxValue crit cells).1 = limit) := by
  constructor
  · intro hle
    have hb : init_sliver_bound limit maxValue = maxValue := by
      simp [init_sliver_bound, not_lt.mpr hle]
    constructor
    · simp [exuder_init, hb]
    · intro x
      have h := hl_init_queue_mem crit maxValue cells [] x
      simp only [pqContains, List.any_nil, Bool.false_eq_true, or_false] at h
      have h2 : (exuder_init limit maxValue crit cells).2 =
          init_cells_queue crit maxValue cells := by
        simp [exuder_init, hb]
      rw [h2]
      exact h
  · intro hlt
    simp [exuder_init, init_sliver_bound, hlt]

/-- Witness for C10 at a concrete call: threshold 0 yields working bound 42,
the quality-40 cell is queued and the quality-50 cell is not. -/
theorem C10_nonpositive_threshold_witness :
    (exuder_init 0 42 (fun c => if c = 3 then 40 else 50) [3, 4]).1 = 42 ∧
    pqContains 3 (exuder_init 0 42 (fun c => if c = 3 then 40 else 50) [3, 4]).2 = true ∧
    pqContains 4 (exuder_init 0 42 (fun c => if c = 3 then 40 else 50) [3, 4]).2 = false := by
  have h := (C10_nonpositive_threshold 0 42 (fun c => if c = 3 then 40 else 50) [3, 4]).1
    (by norm_num)
  refine ⟨h.1, (h.2 3).mpr (by norm_num), ?_⟩
  have h4 := h.2 4
  simp only [List.mem_cons, List.not_mem_nil] at h4
  by_cases hc : pqContains 4 (exuder_init 0 42 (fun c => if c = 3 then 40 else 50) [3, 4]).2 = true
  · have := h4.mp hc
    norm_num at this
  · simpa using hc

theorem hl_gbw_step (T : Tri) (s : MeshState) (par : Bool) (sqDelta sqdv : ℚ)
    (v : VertexH) (n : Nat) (g : GbwState) :
    gbw_loop T s par sqDelta sqdv v (n + 1) g = (g, true) ∨
    gbw_loop T s par sqDelta sqdv v (n + 1) g = (g, false) ∨
    (∃ g2 : GbwState, g.worst ≤ g2.worst ∧ (g2.best = g.best ∨ g.worst < g2.worst) ∧
      gbw_loop T s par sqDelta sqdv v (n + 1) g = gbw_loop T s par sqDelta sqdv v n g2) ∨
    (∃ ps2 cv2, gbw_loop T s par sqDelta sqdv v (n + 1) g =
      (⟨ps2, cv2, g.worst, g.best⟩, true)) := by
  obtain ⟨ps, cv, worst, best⟩ := g
  rcases ps with _ | ⟨⟨criticalR, link⟩, rest⟩
  · left; simp [gbw_loop]
  · by_cases h1 : criticalR < sqDelta * sqdv ∧ inComplexFacet s link = false
    · by_cases h2 : (par && !T.tryLockCell (T.mirror link).1) = true
      · right; left
        simp [gbw_loop, h1, h2]
      · rcases he : expand_prestar T s (T.mirror link).1 v
            ((criticalR, link) :: rest) cv with ⟨cf, ps2, cv2⟩
        cases cf with
        | false =>
          right; right; right
          exact ⟨ps2, cv2, by simp [gbw_loop, h1, h2, he]⟩
        | true =>
          right; right; left
          by_cases h3 : worst < get_min_value cv2
          · rcases ps2 with _ | ⟨⟨r2, k2⟩, t2⟩
            · refine ⟨⟨[], cv2, get_min_value cv2, (criticalR + 0) / 2⟩,
                le_of_lt h3, Or.inr h3, ?_⟩
              simp [gbw_loop, h1, h2, he, h3]
            · refine ⟨⟨(r2, k2) :: t2, cv2, get_min_value cv2, (criticalR + r2) / 2⟩,
                le_of_lt h3, Or.inr h3, ?_⟩
              simp [gbw_loop, h1, h2, he, h3]
          · refine ⟨⟨ps2, cv2, worst, best⟩, le_refl _, Or.inl rfl, ?_⟩
            simp [gbw_loop, h1, h2, he, h3]
    · left; simp only [gbw_loop]
      rw [if_neg h1]

theorem hl_gbw_worst_le (T : Tri) (s : MeshState) (par : Bool) (sqDelta sqdv : ℚ)
    (v : VertexH) :
    ∀ (fuel : Nat) (g : GbwState),
      g.worst ≤ ((gbw_loop T s par sqDelta sqdv v fuel g).1).worst := by
  intro fuel
  induction fuel with
  | zero => intro g; simp [gbw_loop]
  | succ n ih =>
    intro g
    rcases hl_gbw_step T s par sqDelta sqdv v n g with h | h | ⟨g2, hle, _, heq⟩ |
      ⟨ps2, cv2, heq⟩
    · rw [h]
    · rw [h]
    · rw [heq]; exact le_trans hle (ih g2)
    · rw [heq]

theorem hl_gbw_best_or_worst (T : Tri) (s : MeshState) (par : Bool) (sqDelta sqdv : ℚ)
    (v : VertexH) :
    ∀ (fuel : Nat) (g : GbwState),
      ((gbw_loop T s par sqDelta sqdv v fuel g).1).best = g.best ∨
        g.worst < ((gbw_loop T s par sqDelta sqdv v fuel g).1).worst := by
  intro fuel
  induction fuel with
  | zero => intro g; left; simp [gbw_loop]
  | succ n ih =>
    intro g
    rcases hl_gbw_step T s par sqDelta sqdv v n g with h | h | ⟨g2, hle, hbw, heq⟩ |
      ⟨ps2, cv2, heq⟩
    · rw [h]; left; rfl
    · rw [h]; left; rfl
    · rw [heq]
      rcases ih g2 with hb | hw
      · rcases hbw with hb2 | hw2
        · left; rw [hb, hb2]
        · right
          exact lt_of_lt_of_le hw2 (hl_gbw_worst_le T s par sqDelta sqdv v n g2)
      · right; exact lt_of_le_of_lt hle hw
    · rw [heq]; left; rfl

/-- C4: within one get_best_weight call the tracked worst criterion value never
decreases across loop iterations; on an accepted expansion it is replaced
exactly when the recomputed minimum of the criterion cache strictly exceeds it,
at which point best_weight becomes the midpoint of the just-popped critical
radius and the new front critical radius; and the returned best weight is the
initial 0 unless some iteration strictly improved the tracked worst value. -/
theorem C4_worst_monotone (T : Tri) (s : MeshState) (par : Bool) (sqDelta sqdv : ℚ)
    (v : VertexH) (fuel : Nat) (g : GbwState) :
    (g.worst ≤ ((gbw_loop T s par sqDelta sqdv v fuel g).1).worst) ∧
    (((gbw_loop T s par sqDelta sqdv v fuel g).1).best = g.best ∨
      g.worst < ((gbw_loop T s par sqDelta sqdv v fuel g).1).worst) ∧
    (∀ criticalR link rest ps2 cv2,
      g.ps = (criticalR, link) :: rest →
      criticalR < sqDelta * sqdv → inComplexFacet s link = false →
      (par && !T.tryLockCell (T.mirror link).1) = false →
      expand_prestar T s (T.mirror link).1 v g.ps g.cv = (true, ps2, cv2) →
      gbw_loop T s par sqDelta sqdv v (fuel + 1) g =
        (if g.worst < get_min_value cv2 then
          gbw_loop T s par sqDelta sqdv v fuel
            ⟨ps2, cv2, get_min_value cv2,
              (criticalR + (match ps2 with | [] => 0 | (r2, _) :: _ => r2)) / 2⟩
        else gbw_loop T s par sqDelta sqdv v fuel ⟨ps2, cv2, g.worst, g.best⟩)) ∧
    ((get_best_weight T s par sqDelta v fuel).1 = 0 ∨
      get_min_value (init_prestar_and_criterion_values T s par v).2.1 <
        ((gbw_loop T s par sqDelta (T.nnDist v) v fuel
          ⟨(init_prestar_and_criterion_values T s par v).1,
           (init_prestar_and_criterion_values T s par v).2.1,
           get_min_value (init_prestar_and_criterion_values T s par v).2.1, 0⟩).1).worst) := by
  refine ⟨hl_gbw_worst_le T s par sqDelta sqdv v fuel g,
    hl_gbw_best_or_worst T s par sqDelta sqdv v fuel g, ?_, ?_⟩
  · intro criticalR link rest ps2 cv2 hps hr hf hlock he
    obtain ⟨ps, cv, worst, best⟩ := g
    simp only at hps
    subst hps
    have h1 : criticalR < sqDelta * sqdv ∧ inComplexFacet s link = false := ⟨hr, hf⟩
    by_cases h3 : worst < get_min_value cv2
    · simp [gbw_loop, h1, hlock, he, h3]
    · simp [gbw_loop, h1, hlock, he, h3]
  · by_cases hini : (par && !(init_prestar_and_criterion_values T s par v).2.2) = true
    · left; simp [get_best_weight, hini]
    · by_cases hrf : (par && !(gbw_loop T s par sqDelta (T.nnDist v) v fuel
          ⟨(init_prestar_and_criterion_values T s par v).1,
           (init_prestar_and_criterion_values T s par v).2.1,
           get_min_value (init_prestar_and_criterion_values T s par v).2.1, 0⟩).2) = true
      · left; simp [get_best_weight, hini, hrf]
      · have hb := hl_gbw_best_or_worst T s par sqDelta (T.nnDist v) v fuel
          ⟨(init_prestar_and_criterion_values T s par v).1,
           (init_prestar_and_criterion_values T s par v).2.1,
           get_min_value (init_prestar_and_criterion_values T s par v).2.1, 0⟩
        rcases hb with hb | hw
        · left
          simp only [get_best_weight, hini, if_false, hrf, Bool.false_eq_true]
          simpa using hb
        · right; exact hw

/-- Witness for C4 at the example world: the tracked worst value stays at least
its initial 5 over the concrete run, and the accepted first expansion is the
stated update step (the minimum rises from 5 to 7, best becomes the midpoint of
the popped radius 1 and the new front radius). -/
theorem C4_worst_monotone_witness :
    ((5 : ℚ) ≤ ((gbw_loop exT exS false 1 10 0 3 exG0).1).worst) ∧
    gbw_loop exT exS false 1 10 0 3 exG0 =
      (if (5 : ℚ) < get_min_value exCv2 then
        gbw_loop exT exS false 1 10 0 2
          ⟨exPs2, exCv2, get_min_value exCv2,
            ((1 : ℚ) + (match exPs2 with | [] => 0 | (r2, _) :: _ => r2)) / 2⟩
      else gbw_loop exT exS false 1 10 0 2 ⟨exPs2, exCv2, 5, 0⟩) := by
  refine ⟨(C4_worst_monotone exT exS false 1 10 0 3 exG0).1, ?_⟩
  exact (C4_worst_monotone exT exS false 1 10 0 2 exG0).2.2.1 1 ((0 : Cell), (0 : Fin 4))
    [(100, ((1 : Cell), (0 : Fin 4)))] exPs2 exCv2 rfl (by norm_num) rfl rfl
    (by with_unfolding_all decide)

/-- C2 counterexample: at the example world the minimum-radius facet of the
initial pre-star is facet (0,0), whose OPPOSITE CELL (cell 2) is already part
of the complex; by the claim the loop must not iterate at all, leaving
best_weight at 0, yet the code iterates - its guard (source line 1128) tests
complex membership of the facet itself, which is false here - and returns the
nonzero best weight 101 / 2. -/
theorem C2_opposite_cell_cex :
    (init_prestar_and_criterion_values exT exS false 0).1.head? =
      some (1, ((0 : Cell), (0 : Fin 4))) ∧
    inComplexCell exS ((exT.mirror ((0 : Cell), (0 : Fin 4))).1) = true ∧
    inComplexFacet exS ((0 : Cell), (0 : Fin 4)) = false ∧
    (get_best_weight exT exS false 1 0 5).1 = 101 / 2 := by
  with_unfolding_all decide

/-- C2 amended: the pre-star expansion loop iterates exactly while the pre-star
is non-empty, its minimum critical radius is strictly below delta-squared times
the squared nearest-neighbour distance, and the minimum-radius FACET is not
itself a facet of the complex (the code tests complex membership of that facet,
not of the cell opposite it); moreover, when during absorption of a cell a
cancelled mirror facet belongs to the complex, expansion stops entirely:
expand_loop returns false at that facet and the main loop then exits without
updating best_weight or the tracked worst value. -/
theorem C2_loop_guard_amended (T : Tri) (s : MeshState) (par : Bool)
    (sqDelta sqdv : ℚ) (v : VertexH) (fuel : Nat) (g : GbwState) :
    (g.ps = [] → gbw_loop T s par sqDelta sqdv v (fuel + 1) g = (g, true)) ∧
    (∀ r l t, g.ps = (r, l) :: t → ¬(r < sqDelta * sqdv) →
      gbw_loop T s par sqDelta sqdv v (fuel + 1) g = (g, true)) ∧
    (∀ r l t, g.ps = (r, l) :: t → inComplexFacet s l = true →
      gbw_loop T s par sqDelta sqdv v (fuel + 1) g = (g, true)) ∧
    (∀ r l t ps2 cv2, g.ps = (r, l) :: t → r < sqDelta * sqdv →
      inComplexFacet s l = false →
      (par && !T.tryLockCell (T.mirror l).1) = false →
      expand_prestar T s (T.mirror l).1 v g.ps g.cv = (false, ps2, cv2) →
      gbw_loop T s par sqDelta sqdv v (fuel + 1) g =
        (⟨ps2, cv2, g.worst, g.best⟩, true)) ∧
    (∀ (cellToAdd : Cell) (smi i : Fin 4) (is : List (Fin 4)) (ps : PQ Facet)
        (cv : AssocL Facet ℚ),
      i ≠ smi → pqContains (T.mirror (cellToAdd, i)) ps = true →
      inComplexFacet s (T.mirror (cellToAdd, i)) = true →
      expand_loop T s cellToAdd v smi (i :: is) ps cv =
        (false, pqEraseKey (T.mirror (cellToAdd, i)) ps, cv)) := by
  refine ⟨?_, ?_, ?_, ?_, ?_⟩
  · intro hps
    obtain ⟨ps, cv, worst, best⟩ := g
    simp only at hps
    subst hps
    simp [gbw_loop]
  · intro r l t hps hr
    obtain ⟨ps, cv, worst, best⟩ := g
    simp only at hps
    subst hps
    have hg : ¬(r < sqDelta * sqdv ∧ inComplexFacet s l = false) := fun h => hr h.1
    simp only [gbw_loop]
    rw [if_neg hg]
  · intro r l t hps hf
    obtain ⟨ps, cv, worst, best⟩ := g
    simp only at hps
    subst hps
    have hg : ¬(r < sqDelta * sqdv ∧ inComplexFacet s l = false) := by
      intro h
      rw [hf] at h
      exact absurd h.2 (by simp)
    simp only [gbw_loop]
    rw [if_neg hg]
  · intro r l t ps2 cv2 hps hr hf hlock he
    obtain ⟨ps, cv, worst, best⟩ := g
    simp only at hps
    subst hps
    have hg : r < sqDelta * sqdv ∧ inComplexFacet s l = false := ⟨hr, hf⟩
    simp [gbw_loop, hg, hlock, he]
  · intro cellToAdd smi i is ps cv hi hmem hf
    simp [expand_loop, hi, hmem, hf]

/-- Witness for C2 at the variant example state exS2 whose facet (0,0) is a
complex surface facet: the loop refuses to iterate from the corresponding
pre-star front, returning its state unchanged. -/
theorem C2_loop_guard_amended_witness :
    gbw_loop exT exS2 false 1 10 0 4 ⟨[(1, ((0 : Cell), (0 : Fin 4)))], [], 5, 0⟩ =
      (⟨[(1, ((0 : Cell), (0 : Fin 4)))], [], 5, 0⟩, true) :=
  (C2_loop_guard_amended exT exS2 false 1 10 0 3
    ⟨[(1, ((0 : Cell), (0 : Fin 4)))], [], 5, 0⟩).2.2.1 1 ((0 : Cell), (0 : Fin 4)) []
    rfl rfl

/-- C3: evaluation at the failing input.  The guard admits the radius-1 facet
(1 < 10 = delta-squared times the squared nearest-neighbour distance of vertex
0), expansion improves the worst quality from 5 to 7, and best_weight is set to
the midpoint of the popped radius 1 and the next front radius 100, namely
101 / 2, which exceeds the 10 bound; the pump accepts it and installs weight
101 / 2 on the replacing vertex 9, violating the claimed weight bound and the
constructor's own documentation (source lines 343-344). -/
theorem C3_weight_bound_violation :
    (get_best_weight exT exS false 1 0 5).1 = 101 / 2 ∧
    1 * exT.nnDist 0 < 101 / 2 ∧
    (pump_vertex exT false 1 10 5 exS 0).1 = true ∧
    weightOf (pump_vertex exT false 1 10 5 exS 0).2.1 9 = 101 / 2 := by
  with_unfolding_all decide

theorem hl_gbw_loop_seq_flag (T : Tri) (s : MeshState) (sqDelta sqdv : ℚ) (v : VertexH) :
    ∀ (fuel : Nat) (g : GbwState), (gbw_loop T s false sqDelta sqdv v fuel g).2 = true := by
  intro fuel
  induction fuel with
  | zero => intro g; simp [gbw_loop]
  | succ n ih =>
    intro g
    obtain ⟨ps, cv, worst, best⟩ := g
    rcases ps with _ | ⟨⟨criticalR, link⟩, rest⟩
    · simp [gbw_loop]
    · by_cases h1 : criticalR < sqDelta * sqdv ∧ inComplexFacet s link = false
      · rcases he : expand_prestar T s (T.mirror link).1 v
            ((criticalR, link) :: rest) cv with ⟨cf, ps2, cv2⟩
        cases cf
        · simp [gbw_loop, h1, he]
        · by_cases h3 : worst < get_min_value cv2
          · simp [gbw_loop, h1, he, h3, ih]
          · simp [gbw_loop, h1, he, h3, ih]
      · simp only [gbw_loop]
        rw [if_neg h1]

/-- C5: pump_vertex succeeds exactly when the expander's best weight strictly
exceeds the vertex's current weight (in parallel mode: and no expander lock
failure occurred), in which case it hands update_mesh the new weighted point;
a failed attempt leaves the mesh untouched; a parallel expander lock failure
aborts as (false, unchanged state, could-lock false); a parallel updater lock
failure leaves the state unchanged and reports through the could-lock flag
even though the attempt was entered. -/
theorem C5_pump_outcome (T : Tri) (par : Bool) (sqDelta bound : ℚ) (fuel : Nat)
    (s : MeshState) (v : VertexH) :
    ((get_best_weight T s false sqDelta v fuel).2 = true) ∧
    ((pump_vertex T false sqDelta bound fuel s v).1 = true ↔
      weightOf s v < (get_best_weight T s false sqDelta v fuel).1) ∧
    ((pump_vertex T par sqDelta bound fuel s v).1 = true ↔
      ((get_best_weight T s par sqDelta v fuel).2 = true ∧
        weightOf s v < (get_best_weight T s par sqDelta v fuel).1)) ∧
    ((pump_vertex T par sqDelta bound fuel s v).1 = true →
      (pump_vertex T par sqDelta bound fuel s v).2.1 =
        (update_mesh T par bound ⟨bareOf s v, (get_best_weight T s par sqDelta v fuel).1⟩
          v s).1) ∧
    ((pump_vertex T par sqDelta bound fuel s v).1 = false →
      (pump_vertex T par sqDelta bound fuel s v).2.1 = s) ∧
    (par = true → (get_best_weight T s par sqDelta v fuel).2 = false →
      pump_vertex T par sqDelta bound fuel s v = (false, s, false)) ∧
    (par = true →
      (T.conflicts ⟨bareOf s v, (get_best_weight T s par sqDelta v fuel).1⟩
        (T.vcell v)).couldLock = false →
      (pump_vertex T par sqDelta bound fuel s v).2.1 = s ∧
      ((pump_vertex T par sqDelta bound fuel s v).1 = true →
        (pump_vertex T par sqDelta bound fuel s v).2.2 = false)) := by
  have hseq : (get_best_weight T s false sqDelta v fuel).2 = true := by
    simp [get_best_weight, hl_gbw_loop_seq_flag]
  refine ⟨hseq, ?_, ?_, ?_, ?_, ?_, ?_⟩
  · by_cases hw : weightOf s v < (get_best_weight T s false sqDelta v fuel).1
    · simp [pump_vertex, hw]
    · simp [pump_vertex, hw]
  · by_cases hok : (get_best_weight T s par sqDelta v fuel).2 = true
    · by_cases hw : weightOf s v < (get_best_weight T s par sqDelta v fuel).1
      · simp [pump_vertex, hok, hw]
      · simp [pump_vertex, hok, hw]
    · cases hpar : par
      · rw [hpar] at hok
        exact absurd hseq hok
      · rw [hpar] at hok
        simp only [Bool.not_eq_true] at hok
        simp [pump_vertex, hok]
  · intro h
    by_cases hok : (par && !(get_best_weight T s par sqDelta v fuel).2) = true
    · rw [pump_vertex] at h
      simp only [hok, if_true] at h
      exact absurd h (by simp)
    · by_cases hw : weightOf s v < (get_best_weight T s par sqDelta v fuel).1
      · simp [pump_vertex, hok, hw]
      · rw [pump_vertex] at h
        simp only [hok, hw, if_false] at h
        exact absurd h (by simp)
  · intro h
    by_cases hok : (par && !(get_best_weight T s par sqDelta v fuel).2) = true
    · simp [pump_vertex, hok]
    · by_cases hw : weightOf s v < (get_best_weight T s par sqDelta v fuel).1
      · rw [pump_vertex] at h
        simp only [hok, hw, if_true, if_false] at h
        exact absurd h (by simp)
      · simp [pump_vertex, hok, hw]
  · intro hpar hflag
    subst hpar
    simp [pump_vertex, hflag]
  · intro hpar hcl
    subst hpar
    by_cases hok : (get_best_weight T s true sqDelta v fuel).2 = true
    · by_cases hw : weightOf s v < (get_best_weight T s true sqDelta v fuel).1
      · constructor
        · simp [pump_vertex, hok, hw, update_mesh, hcl]
        · intro _
          simp [pump_vertex, hok, hw, update_mesh, hcl]
      · constructor
        · simp [pump_vertex, hok, hw]
        · intro h
          rw [pump_vertex] at h
          simp only [hok, hw] at h
          simp at h
    · simp only [Bool.not_eq_true] at hok
      simp [pump_vertex, hok]

/-- Witness for C5 at the example world: the sequential pump of vertex 0
succeeds (its best weight 101 / 2 exceeds the current weight 0) and the
resulting state is exactly the one produced by update_mesh on the new weighted
point. -/
theorem C5_pump_outcome_witness :
    (pump_vertex exT false 1 10 5 exS 0).1 = true ∧
    (pump_vertex exT false 1 10 5 exS 0).2.1 =
      (update_mesh exT false 10 ⟨bareOf exS 0, (get_best_weight exT exS false 1 0 5).1⟩
        0 exS).1 := by
  have h := C5_pump_outcome exT false 1 10 5 exS 0
  have h1 : (pump_vertex exT false 1 10 5 exS 0).1 = true :=
    h.2.1.mpr (by with_unfolding_all decide)
  exact ⟨h1, h.2.2.2.1 h1⟩

theorem hl_tcv_ordered {μ : Type} (W : SchedWorld μ) (c : Cell) (m : μ) (q : PQ Cell) :
    ∀ is : List (Fin 4),
      ∃ t2, (try_cell_vertices W c m q is).2 ++ t2 =
        is.filter (fun i => decide (W.pumpSurf = true ∨ 2 < W.dim (W.cellVertex c i))) := by
  intro is
  induction is with
  | nil => exact ⟨[], rfl⟩
  | cons i is ih =>
    by_cases hc : W.pumpSurf = true ∨ 2 < W.dim (W.cellVertex c i)
    · rcases hp : W.pump (W.cellVertex c i) m q with _ | r
      · obtain ⟨t2, ht⟩ := ih
        exact ⟨t2, by simp [try_cell_vertices, hc, hp, List.filter_cons, ht]⟩
      · refine ⟨is.filter
          (fun i => decide (W.pumpSurf = true ∨ 2 < W.dim (W.cellVertex c i))), ?_⟩
        simp [try_cell_vertices, hc, hp, List.filter_cons]
    · obtain ⟨t2, ht⟩ := ih
      exact ⟨t2, by simp [try_cell_vertices, hc, List.filter_cons, ht]⟩

theorem hl_tcv_none {μ : Type} (W : SchedWorld μ) (c : Cell) (m : μ) (q : PQ Cell) :
    ∀ is : List (Fin 4),
      (try_cell_vertices W c m q is).1 = none →
      (try_cell_vertices W c m q is).2 =
        is.filter (fun i => decide (W.pumpSurf = true ∨ 2 < W.dim (W.cellVertex c i))) ∧
      ∀ i ∈ (try_cell_vertices W c m q is).2, W.pump (W.cellVertex c i) m q = none := by
  intro is
  induction is with
  | nil => intro _; exact ⟨rfl, by simp [try_cell_vertices]⟩
  | cons i is ih =>
    intro h
    by_cases hc : W.pumpSurf = true ∨ 2 < W.dim (W.cellVertex c i)
    · rcases hp : W.pump (W.cellVertex c i) m q with _ | r
      · have h2 : (try_cell_vertices W c m q is).1 = none := by
          simpa [try_cell_vertices, hc, hp] using h
        obtain ⟨ha, hb⟩ := ih h2
        constructor
        · simp [try_cell_vertices, hc, hp, List.filter_cons, ha]
        · intro j hj
          have hj2 : j ∈ i :: (try_cell_vertices W c m q is).2 := by
            simpa [try_cell_vertices, hc, hp] using hj
          rcases List.mem_cons.mp hj2 with rfl | hj3
          · exact hp
          · exact hb j hj3
      · exact absurd h (by simp [try_cell_vertices, hc, hp])
    · obtain ⟨ha, hb⟩ := ih (by simpa [try_cell_vertices, hc] using h)
      constructor
      · simp [try_cell_vertices, hc, List.filter_cons, ha]
      · intro j hj
        exact hb j (by simpa [try_cell_vertices, hc] using hj)

theorem hl_tcv_some {μ : Type} (W : SchedWorld μ) (c : Cell) (m : μ) (q : PQ Cell) :
    ∀ (is : List (Fin 4)) (r : μ × PQ Cell),
      (try_cell_vertices W c m q is).1 = some r →
      ∃ l last, (try_cell_vertices W c m q is).2 = l ++ [last] ∧
        (∀ j ∈ l, W.pump (W.cellVertex c j) m q = none) ∧
        W.pump (W.cellVertex c last) m q = some r := by
  intro is
  induction is with
  | nil => intro r h; simp [try_cell_vertices] at h
  | cons i is ih =>
    intro r h
    by_cases hc : W.pumpSurf = true ∨ 2 < W.dim (W.cellVertex c i)
    · rcases hp : W.pump (W.cellVertex c i) m q with _ | r2
      · have h2 : (try_cell_vertices W c m q is).1 = some r := by
          simpa [try_cell_vertices, hc, hp] using h
        obtain ⟨l, last, hl, hnone, hsome⟩ := ih r h2
        refine ⟨i :: l, last, ?_, ?_, hsome⟩
        · simp [try_cell_vertices, hc, hp, hl]
        · intro j hj
          rcases List.mem_cons.mp hj with rfl | hj2
          · exact hp
          · exact hnone j hj2
      · have hr : r2 = r := by simpa [try_cell_vertices, hc, hp] using h
        subst hr
        exact ⟨[], i, by simp [try_cell_vertices, hc, hp], by simp, hp⟩
    · obtain ⟨l, last, hl, hnone, hsome⟩ := ih r (by simpa [try_cell_vertices, hc] using h)
      refine ⟨l, last, ?_, hnone, hsome⟩
      simp [try_cell_vertices, hc, hl]

theorem hl_loop_avoid {μ : Type} (W : SchedWorld μ) (c : Cell)
    (hp : ∀ (v2 : VertexH) (m2 : μ) (q2 : PQ Cell) (r : μ × PQ Cell),
      W.pump v2 m2 q2 = some r → pqContains c r.2 = false) :
    ∀ (fuel t : Nat) (m : μ) (q : PQ Cell), pqContains c q = false →
      c ∉ (pump_loop W fuel t m q).trace ∧
        pqContains c (pump_loop W fuel t m q).queue = false := by
  intro fuel
  induction fuel with
  | zero => intro t m q hq; exact ⟨by simp [pump_loop], by simpa [pump_loop] using hq⟩
  | succ n ih =>
    intro t m q hq
    rcases q with _ | ⟨⟨val, c1⟩, rest⟩
    · exact ⟨by simp [pump_loop], by simp [pump_loop, pqContains]⟩
    · by_cases ht : W.timeUp t
      · exact ⟨by simp [pump_loop, ht], by simpa [pump_loop, ht] using hq⟩
      · have hq2 : ¬(c1 = c) ∧ pqContains c rest = false := by
          simpa [pqContains] using hq
        rcases hstep : (try_cell_vertices W c1 m ((val, c1) :: rest) [0, 1, 2, 3]).1
            with _ | r
        · have hrec := ih (t + 1) m rest hq2.2
          constructor
          · intro hmem
            have : c = c1 ∨ c ∈ (pump_loop W n (t + 1) m rest).trace := by
              simpa [pump_loop, ht, pump_step, hstep] using hmem
            rcases this with hcc | hmem2
            · exact hq2.1 hcc.symm
            · exact hrec.1 hmem2
          · simpa [pump_loop, ht, pump_step, hstep] using hrec.2
        · obtain ⟨l, last, _, _, hsome⟩ := hl_tcv_some W c1 m ((val, c1) :: rest)
            [0, 1, 2, 3] r hstep
          have hq3 : pqContains c r.2 = false := hp _ _ _ _ hsome
          have hrec := ih (t + 1) r.1 r.2 hq3
          constructor
          · intro hmem
            have : c = c1 ∨ c ∈ (pump_loop W n (t + 1) r.1 r.2).trace := by
              simpa [pump_loop, ht, pump_step, hstep] using hmem
            rcases this with hcc | hmem2
            · exact hq2.1 hcc.symm
            · exact hrec.1 hmem2
          · simpa [pump_loop, ht, pump_step, hstep] using hrec.2

/-- C6: in the sequential main loop the four vertices of the popped front cell
are tried in index order: the attempted index list is always a prefix of the
eligible indices (surface pumping on, or boundary dimension above 2 - the
others are skipped); when no attempt succeeds, exactly the eligible indices
were attempted, every pump failed, the step pops the front cell, and (when the
queue's keys are distinct) the popped cell is gone from the queue; when some
attempt succeeds, all earlier attempts failed, iteration stops at the first
success, and the step keeps the pump's output without popping; finally, a cell
absent from the queue that no later pump output re-inserts is never processed
by the loop and never reappears in the queue. -/
theorem C6_scheduler_step {μ : Type} (W : SchedWorld μ) (c : Cell) (m : μ) (q : PQ Cell) :
    (∀ is : List (Fin 4),
      ∃ t2, (try_cell_vertices W c m q is).2 ++ t2 =
        is.filter (fun i => decide (W.pumpSurf = true ∨ 2 < W.dim (W.cellVertex c i)))) ∧
    (∀ is : List (Fin 4), (try_cell_vertices W c m q is).1 = none →
      (try_cell_vertices W c m q is).2 =
        is.filter (fun i => decide (W.pumpSurf = true ∨ 2 < W.dim (W.cellVertex c i))) ∧
      ∀ i ∈ (try_cell_vertices W c m q is).2, W.pump (W.cellVertex c i) m q = none) ∧
    (∀ (is : List (Fin 4)) (r : μ × PQ Cell), (try_cell_vertices W c m q is).1 = some r →
      ∃ l last, (try_cell_vertices W c m q is).2 = l ++ [last] ∧
        (∀ j ∈ l, W.pump (W.cellVertex c j) m q = none) ∧
        W.pump (W.cellVertex c last) m q = some r) ∧
    (∀ (rest : PQ Cell) (r : μ × PQ Cell),
      (try_cell_vertices W c m q [0, 1, 2, 3]).1 = some r →
      pump_step W c m q rest = r) ∧
    (∀ rest : PQ Cell, (try_cell_vertices W c m q [0, 1, 2, 3]).1 = none →
      pump_step W c m q rest = (m, rest)) ∧
    (∀ (val : ℚ) (rest : PQ Cell), q = (val, c) :: rest → (pqKeys q).Nodup →
      pqContains c rest = false) ∧
    ((∀ (v2 : VertexH) (m2 : μ) (q2 : PQ Cell) (r : μ × PQ Cell),
        W.pump v2 m2 q2 = some r → pqContains c r.2 = false) →
      ∀ (fuel t : Nat) (m2 : μ) (q2 : PQ Cell), pqContains c q2 = false →
        c ∉ (pump_loop W fuel t m2 q2).trace ∧
          pqContains c (pump_loop W fuel t m2 q2).queue = false) := by
  refine ⟨hl_tcv_ordered W c m q, hl_tcv_none W c m q, hl_tcv_some W c m q, ?_, ?_, ?_, ?_⟩
  · intro rest r h
    simp [pump_step, h]
  · intro rest h
    simp [pump_step, h]
  · intro val rest hqe hnd
    subst hqe
    have h2 : ∀ x : ℚ, (x, c) ∉ rest := by
      have h4 := hnd
      simp only [pqKeys, List.map_cons] at h4
      have h5 := (List.nodup_cons.mp h4).1
      intro x hx
      exact h5 (List.mem_map.mpr ⟨(x, c), hx, rfl⟩)
    rw [pqContains, List.any_eq_false]
    rintro ⟨x, c2⟩ hcp
    simp only [decide_eq_true_eq]
    intro hc2
    rw [hc2] at hcp
    exact h2 x hcp
  · intro hp fuel t m2 q2 hq2
    exact hl_loop_avoid W c hp fuel t m2 q2 hq2

/-- Witness for C6 at the concrete world schedW2 (surface pumping off, all
pumps fail): on cell 5 exactly the indices 0, 2 and 3 are eligible and
attempted (vertex index 1 has boundary dimension 2 and is skipped), the step
pops the front cell, and cell 5 never reappears once popped. -/
theorem C6_scheduler_step_witness :
    (try_cell_vertices schedW2 5 0 [(1, 5)] [0, 1, 2, 3]).2 =
      ([0, 1, 2, 3] : List (Fin 4)).filter
        (fun i => decide (schedW2.pumpSurf = true ∨
          2 < schedW2.dim (schedW2.cellVertex 5 i))) ∧
    pump_step schedW2 5 0 [(1, 5)] [] = (0, []) ∧
    (5 : Cell) ∉ (pump_loop schedW2 3 0 0 [(1, 7), (2, 8)]).trace := by
  have h := C6_scheduler_step schedW2 5 0 [(1, 5)]
  refine ⟨(h.2.1 [0, 1, 2, 3] (by decide)).1, h.2.2.2.2.1 [] (by decide), ?_⟩
  refine (h.2.2.2.2.2.2 ?_ 3 0 0 [(1, 7), (2, 8)] (by decide)).1
  intro v2 m2 q2 r hr
  simp [schedW2] at hr

theorem hl_restore_cell_step_verts (T : Tri) (bound : ℚ) (bffo : AssocL Facet (Int × Int))
    (newV : VertexH) (st : MeshState) (c : Cell) :
    (restore_cell_step T bound bffo newV st c).verts = st.verts := by
  rw [restore_cell_step]
  rcases alFind (T.mirror (c, T.indexOf c newV)) bffo with _ | pr
  · rfl
  · simp only []
    repeat' split
    all_goals rfl

theorem hl_restore_cells_verts (T : Tri) (bound : ℚ) (bffo : AssocL Facet (Int × Int))
    (newV : VertexH) :
    ∀ (cs : List Cell) (s : MeshState),
      (restore_cells_and_boundary_facets T bound bffo newV cs s).verts = s.verts := by
  intro cs
  induction cs with
  | nil => intro s; rfl
  | cons c cs ih =>
    intro s
    have h1 : restore_cells_and_boundary_facets T bound bffo newV (c :: cs) s =
        restore_cells_and_boundary_facets T bound bffo newV cs
          (restore_cell_step T bound bffo newV s c) := rfl
    rw [h1, ih, hl_restore_cell_step_verts]

theorem hl_restore_facet_step_verts (T : Tri) (umb : AssocL (VertexH × VertexH) Int)
    (newV : VertexH) (st : MeshState) (f : Facet) :
    (restore_facet_step T umb newV st f).verts = st.verts := by
  rw [restore_facet_step]
  rcases alFind (get_opposite_ordered_edge T f newV) umb with _ | si <;> rfl

theorem hl_restore_internal_verts (T : Tri) (umb : AssocL (VertexH × VertexH) Int)
    (newV : VertexH) :
    ∀ (fs : List Facet) (s : MeshState),
      (restore_internal_facets T umb fs newV s).verts = s.verts := by
  intro fs
  induction fs with
  | nil => intro s; rfl
  | cons f fs ih =>
    intro s
    have h1 : restore_internal_facets T umb (f :: fs) newV s =
        restore_internal_facets T umb fs newV (restore_facet_step T umb newV s f) := rfl
    rw [h1, ih, hl_restore_facet_step_verts]

theorem hl_update_mesh_seq_verts (T : Tri) (bound : ℚ) (wp : WPoint) (oldV : VertexH)
    (s : MeshState) :
    ((update_mesh T false bound wp oldV s).1).verts =
      set_index (T.conflicts wp (T.vcell oldV)).newVertex (idxOf s oldV)
        (set_dimension (T.conflicts wp (T.vcell oldV)).newVertex (dimOf s oldV)
          (tr_insert (T.conflicts wp (T.vcell oldV)).newVertex wp oldV s.verts)) := by
  simp only [update_mesh, Bool.false_and, Bool.false_eq_true, if_false,
    hl_restore_internal_verts, hl_restore_cells_verts]
  rfl

theorem hl_filter_split_length {α : Type} (p : α → Bool) :
    ∀ l : List α, (l.filter p).length + (l.filter (fun a => !p a)).length = l.length := by
  intro l
  induction l with
  | nil => rfl
  | cons a t ih =>
    cases hp : p a
    · simp [List.filter_cons, hp]
      omega
    · simp [List.filter_cons, hp]
      omega

/-- C7: a single sequential update_mesh call keeps the triangulation's vertex
count: the spec-modelled insertion exactly replaces the removed vertex,
provided the old vertex occurs exactly once in the vertex table. -/
theorem C7_vertex_count (T : Tri) (bound : ℚ) (wp : WPoint) (oldV : VertexH)
    (s : MeshState)
    (h : (s.verts.filter (fun p => decide (p.1 = oldV))).length = 1) :
    ((update_mesh T false bound wp oldV s).1).verts.length = s.verts.length := by
  rw [hl_update_mesh_seq_verts, set_index, set_dimension, List.length_map,
    List.length_map, tr_insert, List.length_append]
  have hsplit := hl_filter_split_length (fun p => decide (p.1 = oldV)) s.verts
  have herase : alErase oldV s.verts =
      s.verts.filter (fun p => !(decide (p.1 = oldV))) := by
    rw [alErase]
    congr 1
    funext p
    simp [decide_not]
  rw [herase]
  simp only [List.length_cons, List.length_nil]
  omega

/-- Witness for C7 at the example world: the update that installs the new
weighted point on vertex 9 while removing vertex 0 keeps the vertex count. -/
theorem C7_vertex_count_witness :
    ((update_mesh exT false 10 ⟨0, 101 / 2⟩ 0 exS).1).verts.length = exS.verts.length :=
  C7_vertex_count exT 10 ⟨0, 101 / 2⟩ 0 exS (by decide)

theorem hl_alFind_filter_none {κ ν : Type} [DecidableEq κ] (k : κ) (p : κ × ν → Bool) :
    ∀ l : AssocL κ ν, alFind k l = none → alFind k (l.filter p) = none := by
  intro l
  induction l with
  | nil => intro _; rfl
  | cons a t ih =>
    intro h
    have hsplit : ¬(a.1 = k) ∧ alFind k t = none := by
      by_cases ha : a.1 = k
      · exact absurd h (by simp [alFind, List.find?, ha])
      · refine ⟨ha, ?_⟩
        simpa [alFind, List.find?, ha] using h
    cases hp : p a
    · simpa [List.filter_cons, hp] using ih hsplit.2
    · simp only [List.filter_cons, hp, if_true]
      simpa [alFind, List.find?, hsplit.1] using ih hsplit.2

theorem hl_alFind_append_self {κ ν : Type} [DecidableEq κ] (k : κ) (d : ν) :
    ∀ l : AssocL κ ν, alFind k l = none → alFind k (l ++ [(k, d)]) = some d := by
  intro l
  induction l with
  | nil => intro _; simp [alFind, List.find?]
  | cons a t ih =>
    intro h
    by_cases ha : a.1 = k
    · exact absurd h (by simp [alFind, List.find?, ha])
    · have h2 : alFind k t = none := by simpa [alFind, List.find?, ha] using h
      simpa [alFind, List.find?, ha] using ih h2

theorem hl_alFind_set_dimension_self (v : VertexH) (d : Int) :
    ∀ verts : AssocL VertexH VData,
      alFind v (set_dimension v d verts) =
        (alFind v verts).map (fun vd => { vd with dim := d }) := by
  intro verts
  induction verts with
  | nil => rfl
  | cons a t ih =>
    by_cases ha : a.1 = v
    · simp [set_dimension, alFind, List.find?, ha]
    · simpa [set_dimension, alFind, List.find?, ha] using ih

theorem hl_alFind_set_index_self (v : VertexH) (ix : Int) :
    ∀ verts : AssocL VertexH VData,
      alFind v (set_index v ix verts) =
        (alFind v verts).map (fun vd => { vd with idx := ix }) := by
  intro verts
  induction verts with
  | nil => rfl
  | cons a t ih =>
    by_cases ha : a.1 = v
    · simp [set_index, alFind, List.find?, ha]
    · simpa [set_index, alFind, List.find?, ha] using ih

/-- C8: a successful sequential pump changes only the vertex's weight, never
its position: the weighted point handed to update_mesh keeps the old bare
point with a strictly larger weight, and the replacing vertex receives the old
vertex's boundary-dimension tag and boundary-feature index unchanged (the new
vertex handle being fresh). -/
theorem C8_frame_weight_only (T : Tri) (sqDelta bound : ℚ) (fuel : Nat) (s : MeshState)
    (v : VertexH)
    (hres : (pump_vertex T false sqDelta bound fuel s v).1 = true)
    (hfresh : alFind (T.conflicts ⟨bareOf s v, (get_best_weight T s false sqDelta v fuel).1⟩
        (T.vcell v)).newVertex s.verts = none) :
    weightOf s v < (get_best_weight T s false sqDelta v fuel).1 ∧
    alFind (T.conflicts ⟨bareOf s v, (get_best_weight T s false sqDelta v fuel).1⟩
        (T.vcell v)).newVertex ((pump_vertex T false sqDelta bound fuel s v).2.1).verts =
      some ⟨⟨bareOf s v, (get_best_weight T s false sqDelta v fuel).1⟩,
        dimOf s v, idxOf s v⟩ := by
  by_cases hw : weightOf s v < (get_best_weight T s false sqDelta v fuel).1
  · refine ⟨hw, ?_⟩
    have hstate : (pump_vertex T false sqDelta bound fuel s v).2.1 =
        (update_mesh T false bound
          ⟨bareOf s v, (get_best_weight T s false sqDelta v fuel).1⟩ v s).1 := by
      simp [pump_vertex, hw]
    rw [hstate, hl_update_mesh_seq_verts]
    have h1 : alFind (T.conflicts ⟨bareOf s v, (get_best_weight T s false sqDelta v fuel).1⟩
        (T.vcell v)).newVertex
        (alErase v s.verts) = none := hl_alFind_filter_none _ _ _ hfresh
    have h2 := hl_alFind_append_self
      (T.conflicts ⟨bareOf s v, (get_best_weight T s false sqDelta v fuel).1⟩
        (T.vcell v)).newVertex
      (⟨⟨bareOf s v, (get_best_weight T s false sqDelta v fuel).1⟩, 0, 0⟩ : VData)
      (alErase v s.verts) h1
    rw [hl_alFind_set_index_self, hl_alFind_set_dimension_self, tr_insert, h2]
    rfl
  · rw [pump_vertex] at hres
    simp only [hw] at hres
    exact absurd hres (by simp)

/-- Witness for C8 at the example world: the pump of vertex 0 succeeds; the new
vertex 9 carries the old bare point 0 with its strictly increased weight
101 / 2, and the old dimension tag 3 and feature index 7 were copied over. -/
theorem C8_frame_weight_only_witness :
    weightOf exS 0 < (get_best_weight exT exS false 1 0 5).1 ∧
    alFind (exT.conflicts ⟨bareOf exS 0, (get_best_weight exT exS false 1 0 5).1⟩
        (exT.vcell 0)).newVertex ((pump_vertex exT false 1 10 5 exS 0).2.1).verts =
      some ⟨⟨bareOf exS 0, (get_best_weight exT exS false 1 0 5).1⟩,
        dimOf exS 0, idxOf exS 0⟩ :=
  C8_frame_weight_only exT 1 10 5 exS 0 (by with_unfolding_all decide)
    (by with_unfolding_all decide)
